import Mathlib

/-!
Shallow embedding of the Terra photo-library ingestion backend
(`src/src-tauri/src/lib.rs` and `src/src-tauri/src/db.rs`).

Conventions of the embedding:
* filenames and paths are `String`s; file contents are abstracted away —
  the result of EXIF extraction is passed in as an `Option Int`
  (the parsed embedded timestamp, `none` when absent or unparseable),
  and filesystem facts (modification time, file existence, copy/remove
  success, insert success) are supplied as explicit inputs or oracles;
* `i64` timestamps are `Int` (no overflow is possible in the modelled
  arithmetic: all values stay far below 2^63);
* SQLite state is an explicit record of row lists; `INSERT OR REPLACE`,
  `DELETE`, `UPDATE` and the `GROUP BY` query are modelled directly on it.
-/

/-- ASCII decimal digit test; models the regex class matching the digit
characters appearing in the claims (the source uses the Rust regex crate,
which agrees with this on ASCII input). -/
def asciiDigit (c : Char) : Bool := '0' ≤ c && c ≤ '9'

/-- Value of an ASCII digit character. -/
def digitVal (c : Char) : Nat := c.toNat - '0'.toNat

/-- Read exactly `n` digit characters from the front of `cs`, returning the
decimal value and the remaining characters; `none` if any of the first `n`
characters is missing or not a digit.  This is the semantics of a fixed
width group in the source regexes, combined with the integer
parse that follows it (which cannot fail on at most four ASCII digits). -/
def readDigits : Nat → List Char → Nat → Option (Nat × List Char)
  | 0, cs, acc => some (acc, cs)
  | _ + 1, [], _ => none
  | n + 1, c :: cs, acc =>
    if asciiDigit c then readDigits n cs (acc * 10 + digitVal c) else none

/-- Separator class in the date regex of `parse_filename_date`. -/
def dateSep (c : Char) : Bool := c == '-' || c == '_'

/-- Attempt to match the date regex at the head of `cs`:
four digits, a separator, two digits, a separator, two digits. -/
def dateMatchAt (cs : List Char) : Option (Nat × Nat × Nat) := do
  let (y, cs) ← readDigits 4 cs 0
  match cs with
  | [] => none
  | s :: cs =>
    if dateSep s then do
      let (mo, cs) ← readDigits 2 cs 0
      match cs with
      | [] => none
      | s2 :: cs =>
        if dateSep s2 then do
          let (d, _) ← readDigits 2 cs 0
          pure (y, mo, d)
        else none
    else none

/-- Attempt to match the time regex of `parse_filename_date` at the head of
`cs`: an underscore followed by six digits, read as three two-digit
groups. -/
def timeMatchAt (cs : List Char) : Option (Nat × Nat × Nat) :=
  match cs with
  | '_' :: cs => do
    let (h, cs) ← readDigits 2 cs 0
    let (mi, cs) ← readDigits 2 cs 0
    let (s, _) ← readDigits 2 cs 0
    pure (h, mi, s)
  | _ => none

/-- Leftmost match of a fixed-shape pattern: try the matcher at every
position from the left, returning the first success.  This is the search
semantics of `Regex::captures` for the two regexes above (they contain no
alternation, so a match at a position is unique). -/
def findFirstMatch (f : List Char → Option α) : List Char → Option α
  | [] => f []
  | cs@(_ :: rest) =>
    match f cs with
    | some r => some r
    | none => findFirstMatch f rest

/-- Does `pat` occur at the head of `cs`? -/
def leadsWith : List Char → List Char → Bool
  | [], _ => true
  | _ :: _, [] => false
  | p :: ps, c :: cs => p == c && leadsWith ps cs

/-- Does `pat` occur anywhere in `cs` (substring test)? -/
def occursIn (pat : List Char) : List Char → Bool
  | [] => leadsWith pat []
  | cs@(_ :: rest) => leadsWith pat cs || occursIn pat rest

/-- Is `y` a leap year (proleptic Gregorian)? -/
def isLeapYear (y : Nat) : Bool :=
  y % 4 == 0 && (y % 100 != 0 || y % 400 == 0)

/-- Number of days in month `mo` of year `y` (`mo` between 1 and 12). -/
def daysInMonth (y mo : Nat) : Nat :=
  if mo == 2 then (if isLeapYear y then 29 else 28)
  else if mo == 4 || mo == 6 || mo == 9 || mo == 11 then 30
  else 31

/-- Days from the Unix epoch (1970-01-01) to the civil date `y-mo-d`,
for years at or after 1970 (the only ones reaching this computation in the
source, thanks to its range check).  Standard era-based civil-calendar
computation, as performed inside `chrono::NaiveDateTime`. -/
def daysFromCivil (y mo d : Nat) : Int :=
  let y' := if mo ≤ 2 then y - 1 else y
  let era := y' / 400
  let yoe := y' % 400
  let mp := (mo + 9) % 12
  let doy := (153 * mp + 2) / 5 + d - 1
  let doe := yoe * 365 + yoe / 4 - yoe / 100 + doy
  (((era * 146097 + doe : Nat)) : Int) - 719468

/-- Epoch-second timestamp that `NaiveDateTime::parse_from_str` with format
`%Y-%m-%d %H:%M:%S` produces on the zero-padded rendering of the given
components, or `none` when chrono rejects them: the day must exist in the
month, the hour is 0–23, the minute 0–59, and the second 0–60 (chrono
accepts 60 as a leap second, whose `timestamp()` coincides with second
59 because sub-second carry is discarded). -/
def naiveTimestamp (y mo d h mi s : Nat) : Option Int :=
  if 1 ≤ mo ∧ mo ≤ 12 ∧ 1 ≤ d ∧ d ≤ daysInMonth y mo ∧
      h ≤ 23 ∧ mi ≤ 59 ∧ s ≤ 60 then
    some (daysFromCivil y mo d * 86400 + (h * 3600 + mi * 60 + min s 59 : Nat))
  else none

/-- Range check applied by `parse_filename_date` to the captured date
components before any calendar validation. -/
def dateRangeOk (y mo d : Nat) : Bool :=
  1970 ≤ y && y ≤ 2100 && 1 ≤ mo && mo ≤ 12 && 1 ≤ d && d ≤ 31

/-- `parse_filename_date` from `lib.rs`: find the leftmost
`YYYY[-_]MM[-_]DD` match in the filename; reject it if a component is out
of range; pick the time of day from the leftmost `_HHMMSS` match anywhere
in the filename (defaulting to midnight); finally re-parse the assembled
components through chrono, which validates the actual calendar date and
time. -/
def parse_filename_date (filename : String) : Option Int :=
  match findFirstMatch dateMatchAt filename.data with
  | none => none
  | some (y, mo, d) =>
    if dateRangeOk y mo d then
      match (findFirstMatch timeMatchAt filename.data).getD (0, 0, 0) with
      | (h, mi, s) => naiveTimestamp y mo d h mi s
    else none

/-- The `date_taken` chain of `process_image` (`lib.rs` lines 144–168):
embedded EXIF value first (abstracted here as the already-parsed
`Option Int` that `extract_exif_date` returns), then the filename parser,
then the file modification time (already whole seconds, as
`duration_since(UNIX_EPOCH).as_secs()` produces), then the current
wall-clock time as last resort.  Total: it always returns a timestamp. -/
def resolveDateTaken (exifDate : Option Int) (filename : String)
    (mtime : Option Int) (now : Int) : Int :=
  (((exifDate.orElse fun _ => parse_filename_date filename).orElse
      fun _ => mtime)).getD now

/-- `PhotoMetadata` from `lib.rs`. -/
structure PhotoMetadata where
  path : String
  name : String
  date_taken : Int
  width : Nat
  height : Nat
  is_favorite : Bool
deriving DecidableEq, Repr

/-- Record constructed at the end of `process_image` (`lib.rs` lines
183–190): scanned/processed files always carry `is_favorite := false`. -/
def scannedMeta (canonicalPath name : String) (dateTaken : Int)
    (width height : Nat) : PhotoMetadata :=
  { path := canonicalPath, name := name, date_taken := dateTaken,
    width := width, height := height, is_favorite := false }

/-- One row of the `photos` table (`db.rs`).  The surrogate `id` column is
omitted: no query in the source reads it. -/
structure PhotoRow where
  path : String
  name : String
  date_taken : Int
  width : Nat
  height : Nat
  source_type : String
  created_at : Int
  is_favorite : Bool
deriving DecidableEq, Repr

/-- One row of the `albums` table. -/
structure AlbumRow where
  id : Int
  name : String
  cover_photo_path : Option String
  created_at : Int
deriving DecidableEq, Repr

/-- One row of the `album_photos` junction table. -/
structure MembershipRow where
  album_id : Int
  photo_path : String
  added_at : Int
deriving DecidableEq, Repr

/-- State of the SQLite database created by `init_database`. -/
structure DbState where
  photos : List PhotoRow
  albums : List AlbumRow
  album_photos : List MembershipRow
deriving DecidableEq, Repr

/-- The row written by `insert_photo` for metadata `p`: every column comes
from the record except `source_type` and the freshly stamped
`created_at` (`chrono::Utc::now().timestamp()`, passed in as `now`). -/
def photoRowOf (p : PhotoMetadata) (sourceType : String) (now : Int) :
    PhotoRow :=
  { path := p.path, name := p.name, date_taken := p.date_taken,
    width := p.width, height := p.height, source_type := sourceType,
    created_at := now, is_favorite := p.is_favorite }

/-- `insert_photo` (`db.rs` lines 80–96): `INSERT OR REPLACE` keyed by the
unique `path` column — any existing row with the same path is removed and
the new row takes its place. -/
def insert_photo (db : DbState) (p : PhotoMetadata) (sourceType : String)
    (now : Int) : DbState :=
  { db with photos :=
      db.photos.filter (fun r => !(r.path == p.path)) ++
        [photoRowOf p sourceType now] }

/-- `delete_photo` (`db.rs` lines 131–134) under the schema of
`init_database`: the `DELETE FROM photos` row removal, with the
`ON DELETE CASCADE` declared on `album_photos(photo_path)` removing every
membership row referencing the deleted path. -/
def delete_photo (path : String) (db : DbState) : DbState :=
  { db with
    photos := db.photos.filter (fun r => !(r.path == path)),
    album_photos :=
      db.album_photos.filter (fun m => !(m.photo_path == path)) }

/-- `delete_album` (`db.rs` lines 176–179) under the schema of
`init_database`: the `DELETE FROM albums` row removal, with the
`ON DELETE CASCADE` declared on `album_photos(album_id)` removing every
membership row of the deleted album. -/
def delete_album (id : Int) (db : DbState) : DbState :=
  { db with
    albums := db.albums.filter (fun a => !(a.id == id)),
    album_photos := db.album_photos.filter (fun m => !(m.album_id == id)) }

/-- `set_photo_favorite` (`db.rs` lines 158–164): targeted single-column
`UPDATE`; rows with other paths are untouched, and a missing path updates
nothing. -/
def set_photo_favorite (db : DbState) (path : String) (fav : Bool) :
    DbState :=
  { db with photos := db.photos.map fun r =>
      if r.path == path then { r with is_favorite := fav } else r }

/-- Civil date (year, month, day) of a day count relative to the Unix
epoch; inverse of `daysFromCivil`, valid on the whole proleptic Gregorian
calendar.  `Int.ediv`/`Int.emod` give the floor behaviour the era
decomposition needs. -/
def civilFromDays (z0 : Int) : Int × Nat × Nat :=
  let z := z0 + 719468
  let era := z.ediv 146097
  let doe := (z - era * 146097).toNat
  let yoe := (doe - doe / 1460 + doe / 36524 - doe / 146096) / 365
  let doy := doe - (365 * yoe + yoe / 4 - yoe / 100)
  let mp := (5 * doy + 2) / 153
  let d := doy - (153 * mp + 2) / 5 + 1
  let m := if mp < 10 then mp + 3 else mp - 9
  ((era * 400 + yoe : Int) + (if m ≤ 2 then 1 else 0), m, d)

/-- Calendar year of an epoch-second timestamp (UTC), as both SQLite's
`strftime(…, 'unixepoch')` and chrono's formatting compute it. -/
def yearOfTimestamp (t : Int) : Int := (civilFromDays (t.ediv 86400)).1

/-- Calendar month of an epoch-second timestamp (UTC). -/
def monthOfTimestamp (t : Int) : Nat := (civilFromDays (t.ediv 86400)).2.1

/-- Zero-pad the decimal rendering of `n` to at least `k` characters. -/
def padNum (k n : Nat) : String :=
  let s := toString n
  String.mk (List.replicate (k - s.length) '0') ++ s

/-- Lexicographic (less-or-equal) comparison of character lists by code
point; on UTF-8 encoded text this is the order SQLite's BINARY collation
(byte-wise `memcmp`) induces, since UTF-8 preserves code-point order. -/
def listLeB : List Char → List Char → Bool
  | [], _ => true
  | _ :: _, [] => false
  | c :: cs, d :: ds =>
    if c.toNat < d.toNat then true
    else if d.toNat < c.toNat then false
    else listLeB cs ds

/-- Strict lexicographic comparison of character lists by code point. -/
def listLtB : List Char → List Char → Bool
  | [], [] => false
  | [], _ :: _ => true
  | _ :: _, [] => false
  | c :: cs, d :: ds =>
    if c.toNat < d.toNat then true
    else if d.toNat < c.toNat then false
    else listLtB cs ds

/-- SQLite BINARY-collation string comparison (less-or-equal). -/
def strLeB (a b : String) : Bool := listLeB a.data b.data

/-- SQLite BINARY-collation string comparison (strictly-less). -/
def strLtB (a b : String) : Bool := listLtB a.data b.data

/-- The string SQLite's `strftime('%Y', date_taken, 'unixepoch')` yields:
the four-digit zero-padded year.  (SQLite supports years 0000–9999; the
fallback rendering outside that range stands in for its out-of-range
behaviour and is exercised by no claim.) -/
def yearString (t : Int) : String :=
  let y := yearOfTimestamp t
  if 0 ≤ y ∧ y ≤ 9999 then padNum 4 y.toNat else toString y

/-- `get_photo_count_by_year` (`db.rs` lines 137–155): group the photo
rows by the year string of `date_taken`, count each group, and order the
groups by the year string descending (SQLite orders the text column with
binary collation, i.e. the string order). -/
def get_photo_count_by_year (db : DbState) : List (String × Int) :=
  ((List.insertionSort (fun a b => strLeB a b = true)
      ((db.photos.map fun r => yearString r.date_taken).dedup)).reverse).map
    fun y =>
      (y, ((db.photos.filter fun r => yearString r.date_taken == y).length : Int))

/-- Split a character list at its last occurrence of `sep`, returning the
parts before and after it; `none` when `sep` does not occur. -/
def lastSplitChar (sep : Char) : List Char → Option (List Char × List Char)
  | [] => none
  | c :: rest =>
    match lastSplitChar sep rest with
    | some (s, e) => some (c :: s, e)
    | none => if c == sep then some ([], rest) else none

/-- Rust `Path::extension` on a file name: the portion after the last
`'.'`, unless there is no dot or the only dot leads the name (hidden
files like `.bashrc` have no extension). -/
def extensionOf (name : String) : Option String :=
  match lastSplitChar '.' name.data with
  | some (stem, ext) => if stem.isEmpty then none else some (String.mk ext)
  | none => none

/-- Rust `Path::file_stem` on a (non-empty) file name: the portion before
the last `'.'`, or the whole name when it has no extension. -/
def fileStemOf (name : String) : Option String :=
  if name.isEmpty then none
  else
    match lastSplitChar '.' name.data with
    | some (stem, _) =>
      if stem.isEmpty then some name else some (String.mk stem)
    | none => some name

/-- Rust `Path::file_name` on the destination paths built by
`upload_photos` (`<dir>/<candidate>` with a slash-free candidate): the
component after the last `'/'`. -/
def basenameOf (s : String) : String :=
  match lastSplitChar '/' s.data with
  | some (_, rest) => String.mk rest
  | none => s

/-- The extension allow-list tested by `scan_directory`
(`lib.rs` line 226), lower-case. -/
def supportedExts : List String :=
  ["jpg", "jpeg", "png", "heic", "webp", "gif", "bmp",
   "mp4", "mov", "avi", "webm", "mkv"]

/-- ASCII lower-casing of one character. -/
def lowerChar (c : Char) : Char :=
  if 'A' ≤ c && c ≤ 'Z' then Char.ofNat (c.toNat + 32) else c

/-- Lower-case a string character-wise.  (Rust's `to_lowercase` uses full
Unicode rules; on the ASCII extensions compared here the two agree.) -/
def lowerStr (s : String) : String := String.mk (s.data.map lowerChar)

/-- The extension test of `scan_directory`: take the extension (empty
string when absent, as `unwrap_or("")`), lower-case it, and test
membership in the allow-list. -/
def isSupportedMedia (name : String) : Bool :=
  supportedExts.contains (lowerStr ((extensionOf name).getD ""))

/-- A directory entry seen by the `WalkDir` traversal: its file name and
whether it is a regular file. -/
structure DirEntry where
  name : String
  isFile : Bool
deriving DecidableEq, Repr

/-- Step 1 of `scan_directory` (`lib.rs` lines 214–228): keep exactly the
regular files whose lower-cased extension is in the allow-list. -/
def scanFilter (entries : List DirEntry) : List DirEntry :=
  entries.filter fun e => e.isFile && isSupportedMedia e.name

/-- A database operation issued by `scan_directory`; used to state that
the no-persist path touches the database not at all. -/
inductive DbOp where
  | init : DbOp
  | insert (p : PhotoMetadata) (sourceType : String) : DbOp
deriving DecidableEq, Repr

/-- The persistence loop of `scan_directory` (`lib.rs` lines 243–246):
insert each photo in order; the first failing insert stops the loop with
the surfaced error, leaving earlier inserts committed.  `insertFails`
abstracts the SQLite outcome of each insert.  Returns the final database,
the insert operations actually performed, and the error if any. -/
def persistAll (insertFails : PhotoMetadata → Bool) (now : Int) :
    List PhotoMetadata → DbState → DbState × List DbOp × Option String
  | [], db => (db, [], none)
  | p :: rest, db =>
    if insertFails p then (db, [], some "Failed to insert photo")
    else
      let out := persistAll insertFails now rest (insert_photo db p "scan" now)
      (out.1, DbOp.insert p "scan" :: out.2.1, out.2.2)

/-- `scan_directory` (`lib.rs` lines 210–251).  `proc` abstracts
`process_image` on each retained entry (`none` when the entry is skipped);
`rayon`'s ordered `collect` makes the parallel step equal to this
sequential `filterMap`.  When `save_to_db` is set the database is opened
(`initOk` abstracts `init_database`, whose failure aborts with an error
before any insert) and every record is inserted; otherwise the database is
neither opened nor written.  Returns the command result, the new database
state, and the trace of database operations performed. -/
def scan_directory (entries : List DirEntry)
    (proc : DirEntry → Option PhotoMetadata)
    (insertFails : PhotoMetadata → Bool) (initOk : Bool)
    (save_to_db : Bool) (db : DbState) (now : Int) :
    Except String (List PhotoMetadata) × DbState × List DbOp :=
  let photos := (scanFilter entries).filterMap proc
  if save_to_db then
    if initOk then
      match persistAll insertFails now photos db with
      | (db', ops, none) => (Except.ok photos, db', DbOp.init :: ops)
      | (db', ops, some e) => (Except.error e, db', DbOp.init :: ops)
    else (Except.error "Database error", db, [DbOp.init])
  else (Except.ok photos, db, [])

/-- `delete_photos` (`lib.rs` lines 398–417): for each path in order,
delete the database row, then, when the file exists, remove it from disk;
a failed removal (`removeOk` abstracts `fs::remove_file`) surfaces an
error immediately, abandoning the remaining paths.  State is the database
plus the list of files present on disk. -/
def delete_photos (removeOk : String → Bool) :
    List String → DbState → List String →
    DbState × List String × Except String Unit
  | [], db, fs => (db, fs, Except.ok ())
  | p :: rest, db, fs =>
    let db' := delete_photo p db
    if p ∈ fs then
      if removeOk p then delete_photos removeOk rest db' (fs.erase p)
      else (db', fs, Except.error "Failed to delete file")
    else delete_photos removeOk rest db' fs

/-- The year/month shard directory `upload_photos` computes from the
resolved capture timestamp: `<library root>/<%Y>/<%m>` with chrono's
zero-padded four-digit year and two-digit month. -/
def shardDir (lib : String) (dt : Int) : String :=
  lib ++ "/" ++ (let y := yearOfTimestamp dt;
    if 0 ≤ y then padNum 4 y.toNat else toString y)
    ++ "/" ++ padNum 2 (monthOfTimestamp dt)

/-- The `n`-th destination path tried by the collision loop of
`upload_photos`: the plain `<dir>/<base>` first, then
`<dir>/<stem>_<n>.<ext>` for `n = 1, 2, …` (`with_file_name` on the
original destination keeps the directory and replaces the file name). -/
def candidatePath (dir base stem ext : String) : Nat → String
  | 0 => dir ++ "/" ++ base
  | k + 1 => dir ++ "/" ++ stem ++ "_" ++ toString (k + 1) ++ "." ++ ext

/-- The `while final_dest_path.exists()` loop of `upload_photos`: starting
at candidate index `k`, return the first candidate not present in `fs`.
`fuel` bounds the search; the loop in the source runs until a free name is
found, and every use here supplies enough fuel for that name to be
reached. -/
def findFreeFrom (fs : List String) (cand : Nat → String) :
    Nat → Nat → String
  | 0, k => cand k
  | fuel + 1, k => if cand k ∈ fs then findFreeFrom fs cand fuel (k + 1)
    else cand k

/-- A source file handed to `upload_photos`, abstracted by the facts the
pipeline reads from it: its base name, whether it exists, the parsed
embedded EXIF date (if any), its modification time, and the probed
dimensions. -/
structure SourceFile where
  base : String
  srcExists : Bool
  exifDate : Option Int
  mtime : Option Int
  width : Nat
  height : Nat
deriving DecidableEq, Repr

/-- The record `upload_photos` persists after a successful copy: the
`process_image` output re-stamped with the destination path and the
destination's base name (`is_favorite` stays `false`). -/
def uploadedPhoto (destPath : String) (dt : Int) (w h : Nat) :
    PhotoMetadata :=
  { path := destPath, name := basenameOf destPath, date_taken := dt,
    width := w, height := h, is_favorite := false }

/-- One iteration of the `upload_photos` closure (`lib.rs` lines
262–337) on state `(files on disk, database)`:
skip missing sources; run `process_image` (its `date_taken` chain as
`resolveDateTaken`, `is_favorite := false`); compute the year/month shard
of the resolved date (the `DateTime::from_timestamp` bound check and
`create_dir_all` never fail in the range considered here and are not
modelled); disambiguate the destination name through the collision loop
(skipping the file when the source has no stem or extension to
disambiguate with); copy the bytes (`copyOk` abstracts `fs::copy`;
failure skips the file without touching the state); canonicalisation of
the fresh destination is the identity here; stamp the record with the
destination path and name; insert it (`insertFails` abstracts the SQLite
outcome; failure skips the file, leaving the copied bytes on disk).
Returns the new state and the successfully ingested record, if any. -/
def uploadOne (lib : String) (copyOk : String → Bool)
    (insertFails : PhotoMetadata → Bool) (now : Int) (src : SourceFile)
    (st : List String × DbState) :
    (List String × DbState) × Option PhotoMetadata :=
  let (fs, db) := st
  if !src.srcExists then (st, none)
  else if src.base.isEmpty then (st, none)
  else
    let dt := resolveDateTaken src.exifDate src.base src.mtime now
    let dir := shardDir lib dt
    let dest0 := dir ++ "/" ++ src.base
    let finalDest : Option String :=
      if dest0 ∈ fs then
        match fileStemOf src.base, extensionOf src.base with
        | some stem, some ext =>
          some (findFreeFrom fs (candidatePath dir src.base stem ext)
            (fs.length + 1) 1)
        | _, _ => none
      else some dest0
    match finalDest with
    | none => (st, none)
    | some fdest =>
      if !copyOk fdest then (st, none)
      else
        let fs' := fdest :: fs
        let photo := uploadedPhoto fdest dt src.width src.height
        if insertFails photo then ((fs', db), none)
        else ((fs', insert_photo db photo "upload" now), some photo)

/-- `upload_photos`: fold `uploadOne` over the source list, collecting the
successfully ingested records in order (the `filter_map` of the
source). -/
def upload_photos (lib : String) (copyOk : String → Bool)
    (insertFails : PhotoMetadata → Bool) (now : Int) :
    List SourceFile → List String × DbState →
    (List String × DbState) × List PhotoMetadata
  | [], st => (st, [])
  | s :: rest, st =>
    let step := uploadOne lib copyOk insertFails now s st
    let out := upload_photos lib copyOk insertFails now rest step.1
    (out.1, step.2.toList ++ out.2)

/-! ## Helper lemmas -/

/-- Filtering by `q` after keeping only the elements rejecting `q` leaves
nothing. -/
theorem filter_of_filter_not (q : α → Bool) (xs : List α) :
    (xs.filter fun x => !(q x)).filter q = [] := by
  induction xs with
  | nil => rfl
  | cons a l ih => cases h : q a <;> simp [List.filter_cons, h, ih]

/-- Everything surviving a `filter` by `¬ q` rejects `q`. -/
theorem all_not_of_filter_not (q : α → Bool) (xs : List α) :
    (xs.filter fun x => !(q x)).all (fun x => !(q x)) = true := by
  simp [List.all_eq_true, List.mem_filter]

/-! ## C1 — cascade invariant -/

/-- C1. Cascade invariant: after `delete_album a`, no `album_photos` row
with `album_id = a` remains, and after `delete_photo p`, no `album_photos`
row with `photo_path = p` remains — the `ON DELETE CASCADE` clauses the
schema of `init_database` declares on both foreign keys of the junction
table. -/
theorem c1_cascade_invariant (db : DbState) (a : Int) (p : String) :
    ((delete_album a db).album_photos.all fun m => !(m.album_id == a)) = true
    ∧
    ((delete_photo p db).album_photos.all
      fun m => !(m.photo_path == p)) = true := by
  exact ⟨all_not_of_filter_not _ _, all_not_of_filter_not _ _⟩

/-! ## C6 — upsert replaces the whole row -/

/-- C6. `insert_photo` is an `INSERT OR REPLACE` keyed by path: upserting
the same record twice leaves exactly one row for that path, carrying the
second call's `created_at`; and a favorite set through
`set_photo_favorite` is lost when the path is re-upserted with a record
built by `process_image` (whose `is_favorite` is always `false`), so the
surviving row has `is_favorite = false`. -/
theorem c6_upsert_replaces_whole_row (db : DbState) (r : PhotoMetadata)
    (st : String) (t1 t2 : Int) (p n : String) (dt : Int) (w h : Nat)
    (t3 : Int) :
    ((insert_photo (insert_photo db r st t1) r st t2).photos.filter
        fun x => x.path == r.path) = [photoRowOf r st t2]
    ∧
    ((insert_photo (set_photo_favorite db p true)
        (scannedMeta p n dt w h) "scan" t3).photos.filter
        fun x => x.path == p) = [photoRowOf (scannedMeta p n dt w h) "scan" t3]
    ∧
    (photoRowOf (scannedMeta p n dt w h) "scan" t3).is_favorite = false := by
  refine ⟨?_, ?_, rfl⟩ <;>
    simp [insert_photo, List.filter_append, filter_of_filter_not,
      photoRowOf, scannedMeta]

/-! ## C10 — scan without persistence is database-frame-preserving -/

/-- C10. `scan_directory` with `save_to_db = false` issues no database
operation at all — `init_database` is never called and nothing is written
— so the store state is returned unchanged. -/
theorem c10_scan_no_db_when_not_saving (entries : List DirEntry)
    (proc : DirEntry → Option PhotoMetadata)
    (insertFails : PhotoMetadata → Bool) (initOk : Bool) (db : DbState)
    (now : Int) :
    (scan_directory entries proc insertFails initOk false db now).2.1 = db
    ∧
    (scan_directory entries proc insertFails initOk false db now).2.2 = []
    := by
  exact ⟨rfl, rfl⟩

/-! ## C2 — capture-date fallback order -/

/-- C2 counterexample. The claim asserts that whenever no embedded tag
parses and the filename merely CONTAINS `2017-11-26_030858`, the resolved
timestamp is the epoch value of 2017-11-26T03:08:58Z (1511665738).  The
filename `2020-01-01_2017-11-26_030858.jpg` contains that substring, has
no embedded tag (`none`) and a modification time, yet resolves to
1577848138 (2020-01-01T03:08:58Z): the date regex takes its leftmost
match `2020-01-01`, while the time regex still picks up `_030858`. -/
theorem c2_counterexample :
    occursIn ("2017-11-26_030858".data)
      ("2020-01-01_2017-11-26_030858.jpg".data) = true
    ∧
    resolveDateTaken none "2020-01-01_2017-11-26_030858.jpg" (some 0) 0 =
      1577848138
    ∧ (1577848138 : Int) ≠ 1511665738 := by
  refine ⟨by decide, by decide, by decide⟩

/-- C2 amended. The fallback order of `process_image`: a parsed embedded
EXIF value wins regardless of filename and modification time; otherwise
the value the filename-date step yields (for the filename
`2017-11-26_030858.jpeg` itself — not every filename containing that
substring — this is 1511665738, i.e. 2017-11-26T03:08:58Z); otherwise
the file's whole-second modification time; otherwise the current time —
so the resolver always produces a timestamp and never fails. -/
theorem c2_fallback_order_amended :
    (∀ (t : Int) (f : String) (m : Option Int) (now : Int),
      resolveDateTaken (some t) f m now = t)
    ∧
    (∀ (f : String) (m : Option Int) (now t : Int),
      parse_filename_date f = some t → resolveDateTaken none f m now = t)
    ∧
    (∀ (f : String) (now m : Int), parse_filename_date f = none →
      resolveDateTaken none f (some m) now = m)
    ∧
    (∀ (f : String) (now : Int), parse_filename_date f = none →
      resolveDateTaken none f none now = now)
    ∧
    resolveDateTaken none "2017-11-26_030858.jpeg" (some 999) 0 =
      1511665738 := by
  refine ⟨fun t f m now => rfl, fun f m now t hp => ?_, fun f now m hp => ?_,
    fun f now hp => ?_, by decide⟩ <;>
    simp [resolveDateTaken, Option.orElse, hp]

/-- C2 witness: the amended theorem applied at concrete inputs — the
filename step and the modification-time step each resolved concretely. -/
theorem c2_fallback_order_amended_witness :
    resolveDateTaken none "IMG.jpg" (some 42) 0 = 42 :=
  c2_fallback_order_amended.2.2.1 "IMG.jpg" 0 42 (by decide)

/-! ## C3 — filename date parsing -/

/-- C3 counterexample. The claim asserts a six-digit `HHMMSS` group is
included as time-of-day ONLY when it immediately follows the date pattern,
the time defaulting to midnight otherwise.  In
`a_123456_2021-03-04.jpg` the `_123456` group precedes the date and does
not follow it, yet the code uses it: the result is 1614861296
(2021-03-04T12:34:56Z) instead of midnight 1614816000
(2021-03-04T00:00:00Z). -/
theorem c3_counterexample :
    parse_filename_date "a_123456_2021-03-04.jpg" = some 1614861296
    ∧ (1614861296 : Int) ≠ 1614816000 := by
  refine ⟨by decide, by decide⟩

/-- C3 amended. `parse_filename_date` uses the LEFTMOST date-shaped match
(an out-of-range leftmost match ends the step even if an in-range match
occurs later); when the range check passes, the time of day comes from
the leftmost `_HHMMSS`-shaped group anywhere in the filename — not
necessarily adjacent to the date — defaulting to midnight when no such
group exists; finally chrono validates the assembled components as a real
calendar date-time (`naiveTimestamp`), so e.g. a February 31 or an hour
of 99 makes the step yield nothing. -/
theorem c3_filename_date_amended (f : String) :
    (findFirstMatch dateMatchAt f.data = none → parse_filename_date f = none)
    ∧
    (∀ y mo d, findFirstMatch dateMatchAt f.data = some (y, mo, d) →
      (dateRangeOk y mo d = false → parse_filename_date f = none)
      ∧
      (dateRangeOk y mo d = true →
        parse_filename_date f =
          (match (findFirstMatch timeMatchAt f.data).getD (0, 0, 0) with
           | (hh, mi, ss) => naiveTimestamp y mo d hh mi ss))) := by
  constructor
  · intro h
    simp [parse_filename_date, h]
  · intro y mo d h
    constructor <;> intro hr <;> simp [parse_filename_date, h, hr]

/-- C3 witness: the amended theorem applied at a concrete filename with
an in-range leftmost date match and no time group. -/
theorem c3_filename_date_amended_witness :
    parse_filename_date "x_2021-05-06.png" = some 1620259200 := by
  have h :=
    ((c3_filename_date_amended "x_2021-05-06.png").2 2021 5 6 (by decide)).2
      (by decide)
  rw [h]
  decide

/-! ## C7 — scanner extension filter -/

/-- C7. The scanner's first phase retains exactly the regular files whose
extension, lower-cased, is in the twelve-element allow-list; a file
without an extension is never retained (its extension defaults to the
empty string, which is not in the list).  The concrete conjunct scans a
listing with one file per supported extension (in mixed case), one
unsupported extension, one extension-less file and one directory, and
retains exactly the twelve supported files. -/
theorem c7_scan_extension_filter :
    (∀ (entries : List DirEntry) (e : DirEntry),
      e ∈ scanFilter entries ↔
        e ∈ entries ∧ e.isFile = true ∧
          ∃ x, extensionOf e.name = some x ∧ lowerStr x ∈ supportedExts)
    ∧
    scanFilter
      [⟨"a.JPG", true⟩, ⟨"b.jpeg", true⟩, ⟨"c.Png", true⟩, ⟨"d.heic", true⟩,
       ⟨"e.webp", true⟩, ⟨"f.GIF", true⟩, ⟨"g.bmp", true⟩, ⟨"h.mp4", true⟩,
       ⟨"i.MOV", true⟩, ⟨"j.avi", true⟩, ⟨"k.webm", true⟩, ⟨"l.mkv", true⟩,
       ⟨"m.txt", true⟩, ⟨"noext", true⟩, ⟨"n.jpg", false⟩] =
      [⟨"a.JPG", true⟩, ⟨"b.jpeg", true⟩, ⟨"c.Png", true⟩, ⟨"d.heic", true⟩,
       ⟨"e.webp", true⟩, ⟨"f.GIF", true⟩, ⟨"g.bmp", true⟩, ⟨"h.mp4", true⟩,
       ⟨"i.MOV", true⟩, ⟨"j.avi", true⟩, ⟨"k.webm", true⟩, ⟨"l.mkv", true⟩]
    := by
  constructor
  · intro entries e
    simp only [scanFilter, List.mem_filter, Bool.and_eq_true,
      isSupportedMedia, and_congr_right_iff]
    intro _ _
    cases hx : extensionOf e.name with
    | none =>
      simp only [hx, Option.getD_none]
      constructor
      · intro hc
        exact absurd hc (by decide)
      · rintro ⟨x, hx2, -⟩
        cases hx2
    | some x =>
      simp only [hx, Option.getD_some]
      constructor
      · intro hc
        exact ⟨x, rfl, by simpa using hc⟩
      · rintro ⟨x2, hx2, hmem⟩
        cases hx2
        simpa using hmem
  · decide

/-! ## C9 — counts by year -/

/-- `listLeB` is total. -/
theorem listLeB_total (x : List Char) : ∀ y,
    listLeB x y = true ∨ listLeB y x = true := by
  induction x with
  | nil => intro y; left; rfl
  | cons c cs ih =>
    intro y
    cases y with
    | nil => right; rfl
    | cons d ds =>
      by_cases h1 : c.toNat < d.toNat
      · left; simp [listLeB, h1]
      · by_cases h2 : d.toNat < c.toNat
        · right; simp [listLeB, h2]
        · have := ih ds
          simpa [listLeB, h1, h2] using this

/-- `listLeB` is transitive. -/
theorem listLeB_trans (x : List Char) : ∀ y z,
    listLeB x y = true → listLeB y z = true → listLeB x z = true := by
  induction x with
  | nil => intro y z _ _; rfl
  | cons c cs ih =>
    intro y z h1 h2
    cases y with
    | nil => simp [listLeB] at h1
    | cons d ds =>
      cases z with
      | nil => simp [listLeB] at h2
      | cons e es =>
        by_cases cd : c.toNat < d.toNat
        · by_cases de : d.toNat < e.toNat
          · simp [listLeB, show c.toNat < e.toNat from by omega]
          · by_cases ed : e.toNat < d.toNat
            · simp [listLeB, de, ed] at h2
            · simp [listLeB, show c.toNat < e.toNat from by omega]
        · by_cases dc : d.toNat < c.toNat
          · simp [listLeB, cd, dc] at h1
          · by_cases de : d.toNat < e.toNat
            · simp [listLeB, show c.toNat < e.toNat from by omega]
            · by_cases ed : e.toNat < d.toNat
              · simp [listLeB, de, ed] at h2
              · have hce : ¬ c.toNat < e.toNat := by omega
                have hec : ¬ e.toNat < c.toNat := by omega
                have h1' : listLeB cs ds = true := by
                  simpa [listLeB, cd, dc] using h1
                have h2' : listLeB ds es = true := by
                  simpa [listLeB, de, ed] using h2
                simpa [listLeB, hce, hec] using ih ds es h1' h2'

instance : IsTotal String (fun a b => strLeB a b = true) :=
  ⟨fun a b => listLeB_total a.data b.data⟩

instance : IsTrans String (fun a b => strLeB a b = true) :=
  ⟨fun a b c => listLeB_trans a.data b.data c.data⟩

/-- C9. `get_photo_count_by_year` returns the year/count pairs ordered
strictly descending by the year string (SQLite's `ORDER BY year DESC`
under BINARY collation); every returned pair consists of a year string
realised by some stored row together with the exact number of rows of
that year; every realised year is returned; and on a store with capture
timestamps in 2021, 2021 and 2023 the result is
`[("2023", 1), ("2021", 2)]`. -/
theorem c9_counts_by_year :
    (∀ db : DbState,
      List.Pairwise (fun x y => strLeB y.1 x.1 = true ∧ x.1 ≠ y.1)
        (get_photo_count_by_year db))
    ∧
    (∀ (db : DbState) (y : String) (c : Int),
      (y, c) ∈ get_photo_count_by_year db →
        (∃ r ∈ db.photos, yearString r.date_taken = y) ∧
        c = ((db.photos.filter
          fun r => yearString r.date_taken == y).length : Int))
    ∧
    (∀ (db : DbState) (y : String),
      (∃ r ∈ db.photos, yearString r.date_taken = y) →
        ∃ c, (y, c) ∈ get_photo_count_by_year db)
    ∧
    get_photo_count_by_year
      ⟨[⟨"a", "a", 1609459200, 0, 0, "scan", 11, false⟩,
        ⟨"b", "b", 1622505600, 0, 0, "scan", 12, false⟩,
        ⟨"c", "c", 1672531200, 0, 0, "scan", 13, false⟩], [], []⟩ =
      [("2023", 1), ("2021", 2)] := by
  refine ⟨?_, ?_, ?_, by decide⟩
  · intro db
    rw [get_photo_count_by_year, List.pairwise_map, List.pairwise_reverse]
    have hs := List.sorted_insertionSort (fun a b => strLeB a b = true)
      ((db.photos.map fun r => yearString r.date_taken).dedup)
    have hnd : (List.insertionSort (fun a b => strLeB a b = true)
        ((db.photos.map fun r => yearString r.date_taken).dedup)).Nodup :=
      (List.perm_insertionSort _ _).nodup_iff.mpr (List.nodup_dedup _)
    exact (hs.and hnd).imp fun h => ⟨h.1, h.2.symm⟩
  · intro db y c hmem
    rw [get_photo_count_by_year, List.mem_map] at hmem
    obtain ⟨a, ha, hfa⟩ := hmem
    rw [List.mem_reverse, List.mem_insertionSort, List.mem_dedup,
      List.mem_map] at ha
    obtain ⟨r, hr, hy⟩ := ha
    have h1 : a = y := congrArg Prod.fst hfa
    subst h1
    have h2 : ((db.photos.filter
        fun r => yearString r.date_taken == a).length : Int) = c :=
      congrArg Prod.snd hfa
    exact ⟨⟨r, hr, hy⟩, h2.symm⟩
  · intro db y hy
    obtain ⟨r, hr, hy⟩ := hy
    refine ⟨((db.photos.filter
      fun r => yearString r.date_taken == y).length : Int), ?_⟩
    rw [get_photo_count_by_year, List.mem_map]
    refine ⟨y, ?_, rfl⟩
    rw [List.mem_reverse, List.mem_insertionSort, List.mem_dedup,
      List.mem_map]
    exact ⟨r, hr, hy⟩

/-- C9 witness: the year-presence part of the theorem applied on the
concrete three-row store. -/
theorem c9_counts_by_year_witness :
    ∃ c, ("2021", c) ∈ get_photo_count_by_year
      ⟨[⟨"a", "a", 1609459200, 0, 0, "scan", 11, false⟩,
        ⟨"b", "b", 1622505600, 0, 0, "scan", 12, false⟩,
        ⟨"c", "c", 1672531200, 0, 0, "scan", 13, false⟩], [], []⟩ :=
  c9_counts_by_year.2.2.1 _ "2021"
    ⟨⟨"a", "a", 1609459200, 0, 0, "scan", 11, false⟩, by decide, by decide⟩

/-! ## C4 — persistence failure during scan -/

/-- The persistence loop on an all-successful list: every record is
inserted in order and no error arises. -/
theorem persistAll_ok (insertFails : PhotoMetadata → Bool) (now : Int)
    (ps : List PhotoMetadata) (db : DbState)
    (h : ∀ p ∈ ps, insertFails p = false) :
    persistAll insertFails now ps db =
      (ps.foldl (fun d p => insert_photo d p "scan" now) db,
       ps.map (fun p => DbOp.insert p "scan"), none) := by
  induction ps generalizing db with
  | nil => rfl
  | cons p rest ih =>
    have hp : insertFails p = false := h p (List.mem_cons_self p rest)
    simp only [persistAll, hp, Bool.false_eq_true, if_false, List.foldl_cons,
      List.map_cons]
    rw [ih _ fun q hq => h q (List.mem_cons_of_mem p hq)]

/-- The persistence loop stops at the first failing record: records before
it are committed, the failing one and everything after are not, and the
error is reported. -/
theorem persistAll_err (insertFails : PhotoMetadata → Bool) (now : Int)
    (pre : List PhotoMetadata) (p : PhotoMetadata)
    (post : List PhotoMetadata) (db : DbState)
    (hpre : ∀ q ∈ pre, insertFails q = false) (hp : insertFails p = true) :
    persistAll insertFails now (pre ++ p :: post) db =
      (pre.foldl (fun d q => insert_photo d q "scan" now) db,
       pre.map (fun q => DbOp.insert q "scan"),
       some "Failed to insert photo") := by
  induction pre generalizing db with
  | nil => simp [persistAll, hp]
  | cons q rest ih =>
    have hq : insertFails q = false := hpre q (List.mem_cons_self q rest)
    simp only [List.cons_append, persistAll, hq, Bool.false_eq_true,
      if_false, List.foldl_cons, List.map_cons, List.append_eq]
    rw [ih _ fun q' hq' => hpre q' (List.mem_cons_of_mem q hq')]

/-- C4 counterexample. The claim asserts that when an upsert fails during
a persisting scan, the caller still receives the computed records.  On a
scan of two files whose second insert fails, the computed records are
`[m1, m2]`, but the command returns `Except.error` — the computed list is
discarded from the return value (only the error string reaches the
caller); the first record is nevertheless committed. -/
theorem c4_counterexample :
    ((scanFilter [⟨"a.jpg", true⟩, ⟨"b.jpg", true⟩]).filterMap
        (fun e => if e.name == "a.jpg"
          then some (scannedMeta "pa" "a.jpg" 1 0 0)
          else some (scannedMeta "pb" "b.jpg" 2 0 0))) =
      [scannedMeta "pa" "a.jpg" 1 0 0, scannedMeta "pb" "b.jpg" 2 0 0]
    ∧
    (scan_directory [⟨"a.jpg", true⟩, ⟨"b.jpg", true⟩]
        (fun e => if e.name == "a.jpg"
          then some (scannedMeta "pa" "a.jpg" 1 0 0)
          else some (scannedMeta "pb" "b.jpg" 2 0 0))
        (fun m => m.path == "pb") true true ⟨[], [], []⟩ 5).1 =
      Except.error "Failed to insert photo"
    ∧
    (scan_directory [⟨"a.jpg", true⟩, ⟨"b.jpg", true⟩]
        (fun e => if e.name == "a.jpg"
          then some (scannedMeta "pa" "a.jpg" 1 0 0)
          else some (scannedMeta "pb" "b.jpg" 2 0 0))
        (fun m => m.path == "pb") true true ⟨[], [], []⟩ 5).2.1.photos =
      [photoRowOf (scannedMeta "pa" "a.jpg" 1 0 0) "scan" 5] := by
  exact ⟨by decide, by rfl, by rfl⟩

/-- C4 amended. When some record's upsert fails during a persisting
`scan_directory`, persistence of the remaining records is aborted and an
error is surfaced to the caller; records upserted before the failure
remain committed; but the computed scan results are NOT returned to the
caller — the command's return value is only the error. -/
theorem c4_scan_persist_failure_amended (entries : List DirEntry)
    (proc : DirEntry → Option PhotoMetadata)
    (insertFails : PhotoMetadata → Bool) (db : DbState) (now : Int)
    (pre : List PhotoMetadata) (p : PhotoMetadata)
    (post : List PhotoMetadata)
    (hsplit : (scanFilter entries).filterMap proc = pre ++ p :: post)
    (hpre : ∀ q ∈ pre, insertFails q = false)
    (hp : insertFails p = true) :
    scan_directory entries proc insertFails true true db now =
      (Except.error "Failed to insert photo",
       pre.foldl (fun d q => insert_photo d q "scan" now) db,
       DbOp.init :: pre.map (fun q => DbOp.insert q "scan")) := by
  have h := persistAll_err insertFails now pre p post db hpre hp
  simp [scan_directory, hsplit, h]

/-- C4 witness: the amended theorem applied to the concrete two-file scan
whose second insert fails. -/
theorem c4_scan_persist_failure_amended_witness :
    scan_directory [⟨"a.jpg", true⟩, ⟨"b.jpg", true⟩]
        (fun e => if e.name == "a.jpg"
          then some (scannedMeta "pa" "a.jpg" 1 0 0)
          else some (scannedMeta "pb" "b.jpg" 2 0 0))
        (fun m => m.path == "pb") true true ⟨[], [], []⟩ 5 =
      (Except.error "Failed to insert photo",
       [scannedMeta "pa" "a.jpg" 1 0 0].foldl
         (fun d q => insert_photo d q "scan" 5) ⟨[], [], []⟩,
       DbOp.init :: [scannedMeta "pa" "a.jpg" 1 0 0].map
         (fun q => DbOp.insert q "scan")) :=
  c4_scan_persist_failure_amended _ _ _ _ 5
    [scannedMeta "pa" "a.jpg" 1 0 0] (scannedMeta "pb" "b.jpg" 2 0 0) []
    (by decide) (by decide) (by decide)

/-! ## C5 — deletePhotos and best-effort file removal -/

/-- C5 counterexample. The claim asserts file removal is best-effort: a
failure to remove a file neither fails the operation nor prevents
deletion of the remaining paths' rows.  With rows for `"a"` and `"b"`,
the file `"a"` present on disk and removal always failing,
`delete_photos ["a", "b"]` returns an error and leaves the row for
`"b"` in the store. -/
theorem c5_counterexample :
    (delete_photos (fun _ => false) ["a", "b"]
        ⟨[⟨"a", "a", 1, 0, 0, "scan", 0, false⟩,
          ⟨"b", "b", 2, 0, 0, "scan", 0, false⟩], [], []⟩ ["a"]).2.2 =
      Except.error "Failed to delete file"
    ∧
    ((delete_photos (fun _ => false) ["a", "b"]
        ⟨[⟨"a", "a", 1, 0, 0, "scan", 0, false⟩,
          ⟨"b", "b", 2, 0, 0, "scan", 0, false⟩], [], []⟩ ["a"]).1.photos.any
      fun r => r.path == "b") = true := by
  exact ⟨by rfl, by decide⟩

/-- C5 amended. `delete_photos` handles its paths in order, deleting each
path's store row and then removing the file when it exists on disk; but
removal is NOT best-effort: the first failed file removal surfaces an
error and aborts the remaining paths — the failing path's row is already
deleted (as are all earlier ones, with their existing files erased),
while the rows of the unprocessed paths remain. -/
theorem c5_delete_photos_amended (removeOk : String → Bool)
    (pre : List String) (p : String) (post : List String) (db : DbState)
    (fs : List String)
    (hpre : ∀ q ∈ pre, removeOk q = true)
    (hm : p ∈ pre.foldl (fun s q => if q ∈ s then s.erase q else s) fs)
    (hfail : removeOk p = false) :
    delete_photos removeOk (pre ++ p :: post) db fs =
      ((pre ++ [p]).foldl (fun d q => delete_photo q d) db,
       pre.foldl (fun s q => if q ∈ s then s.erase q else s) fs,
       Except.error "Failed to delete file") := by
  induction pre generalizing db fs with
  | nil =>
    simp only [List.foldl_nil] at hm
    simp [delete_photos, hm, hfail]
  | cons q rest ih =>
    have hq : removeOk q = true := hpre q (List.mem_cons_self q rest)
    simp only [List.foldl_cons] at hm
    by_cases hqf : q ∈ fs
    · simp only [List.cons_append, delete_photos, hqf, if_pos, hq, if_true,
        List.foldl_cons, List.append_eq] at hm ⊢
      exact ih _ _ (fun q2 hq2 => hpre q2 (List.mem_cons_of_mem q hq2)) hm
    · simp only [List.cons_append, delete_photos, hqf, if_neg,
        not_false_iff, List.foldl_cons, List.append_eq] at hm ⊢
      exact ih _ _ (fun q2 hq2 => hpre q2 (List.mem_cons_of_mem q hq2)) hm

/-- C5 witness: the amended theorem applied to two paths whose second
file removal fails. -/
theorem c5_delete_photos_amended_witness :
    delete_photos (fun s => s == "a") (["a"] ++ "b" :: [])
      ⟨[⟨"a", "a", 1, 0, 0, "scan", 0, false⟩,
        ⟨"b", "b", 2, 0, 0, "scan", 0, false⟩], [], []⟩ ["a", "b"] =
      ((["a"] ++ ["b"]).foldl (fun d q => delete_photo q d)
        ⟨[⟨"a", "a", 1, 0, 0, "scan", 0, false⟩,
          ⟨"b", "b", 2, 0, 0, "scan", 0, false⟩], [], []⟩,
       ["a"].foldl (fun s q => if q ∈ s then s.erase q else s) ["a", "b"],
       Except.error "Failed to delete file") :=
  c5_delete_photos_amended (fun s => s == "a") ["a"] "b" []
    _ ["a", "b"] (by decide) (by decide) (by decide)

/-! ## C8 — collision handling on upload -/

/-- The collision loop returns the first free candidate: if the first `j`
candidates from index `k` are taken and candidate `k + j` is free, the
loop stops exactly there (given enough fuel). -/
theorem findFreeFrom_eq (fs : List String) (cand : Nat → String) :
    ∀ (j fuel k : Nat), j < fuel → (∀ i, i < j → cand (k + i) ∈ fs) →
      cand (k + j) ∉ fs → findFreeFrom fs cand fuel k = cand (k + j) := by
  intro j
  induction j with
  | zero =>
    intro fuel k hfuel _ hfree
    cases fuel with
    | zero => omega
    | succ f =>
      have hfree' : cand k ∉ fs := by simpa using hfree
      simp [findFreeFrom, hfree']
  | succ j ih =>
    intro fuel k hfuel hin hfree
    cases fuel with
    | zero => omega
    | succ f =>
      have h0 : cand k ∈ fs := by
        simpa using hin 0 (Nat.succ_pos j)
      have step : findFreeFrom fs cand (f + 1) k =
          findFreeFrom fs cand f (k + 1) := by
        simp [findFreeFrom, h0]
      rw [step]
      have harg : k + 1 + j = k + (j + 1) := by omega
      have := ih f (k + 1) (by omega)
        (fun i hi => by
          have := hin (i + 1) (by omega)
          simpa [show k + (i + 1) = k + 1 + i from by omega] using this)
        (by simpa [harg] using hfree)
      simpa [harg] using this

/-- Reconstruction: a successful `lastSplitChar` split is a genuine
decomposition at the separator. -/
theorem lastSplitChar_append (sep : Char) :
    ∀ (cs s e : List Char), lastSplitChar sep cs = some (s, e) →
      cs = s ++ sep :: e := by
  intro cs
  induction cs with
  | nil => intro s e h; cases h
  | cons c rest ih =>
    intro s e h
    unfold lastSplitChar at h
    cases hr : lastSplitChar sep rest with
    | some pr =>
      rw [hr] at h
      obtain ⟨s2, e2⟩ := pr
      cases h
      simpa using ih s2 e (by simpa using hr)
    | none =>
      rw [hr] at h
      by_cases hc : c == sep
      · rw [if_pos hc] at h
        cases h
        have : c = sep := by simpa using hc
        simp [this]
      · rw [if_neg hc] at h
        cases h

/-- A name with both a stem and an extension decomposes as
`<stem>.<ext>`. -/
theorem stem_ext_decomp (b stem ext : String)
    (hext : extensionOf b = some ext) (hstem : fileStemOf b = some stem) :
    b.data = stem.data ++ '.' :: ext.data := by
  unfold extensionOf at hext
  unfold fileStemOf at hstem
  cases h : lastSplitChar '.' b.data with
  | none => rw [h] at hext; cases hext
  | some pr =>
    obtain ⟨s, e⟩ := pr
    rw [h] at hext hstem
    by_cases hs : s.isEmpty
    · simp [hs] at hext
    · simp only [hs, Bool.false_eq_true, if_false, Option.some.injEq] at hext
      by_cases hb : b.isEmpty
      · simp [hb] at hstem
      · simp only [hb, Bool.false_eq_true, if_false, hs,
          Option.some.injEq] at hstem
        rw [← hext, ← hstem]
        exact lastSplitChar_append '.' b.data s e h

/-- The original destination name differs from the first disambiguated
candidate (`<stem>_1.<ext>` is strictly longer than `<stem>.<ext>`). -/
theorem dest_ne_candidate (dir b stem ext : String)
    (hdecomp : b.data = stem.data ++ '.' :: ext.data) :
    dir ++ "/" ++ b ≠ candidatePath dir b stem ext 1 := by
  intro h
  have hd := congrArg String.data h
  simp only [candidatePath, String.data_append, List.append_assoc,
    hdecomp] at hd
  have hd2 := List.append_cancel_left (List.append_cancel_left hd)
  have hd3 := List.append_cancel_left hd2
  simp at hd3

/-- A middle filter cannot resurrect elements: filtering by `q` after
removing all `q`-elements (and any filtering in between) is empty. -/
theorem filter_mid_nil (q r : α → Bool) (xs : List α) :
    ((xs.filter fun x => !(q x)).filter r).filter q = [] := by
  induction xs with
  | nil => rfl
  | cons a t ih =>
    by_cases h : q a <;> by_cases h2 : r a <;>
      simp [List.filter_cons, h, h2, ih] <;> (intros; assumption)

/-- C8. Uploading two sources with the same base name `b = <stem>.<ext>`
into the same year/month shard: the first lands at `<dir>/<b>`; the
second finds that name taken and the collision loop (counter starting
at 1) gives it `candidatePath dir b stem ext 1 = <dir>/<stem>_1.<ext>`.
Both files are on disk afterwards, the two destination paths are
distinct, the store holds exactly one row under each path, and both
records are returned.  The final conjunct is the general statement that
the collision loop returns the first candidate not already on disk,
incrementing the counter until one is found. -/
theorem c8_upload_collision (lib : String) (copyOk : String → Bool)
    (insertFails : PhotoMetadata → Bool) (now : Int)
    (fs0 : List String) (db0 : DbState) (d1 d2 : Int)
    (b stem ext : String) (w1 h1 w2 h2 : Nat)
    (hstem : fileStemOf b = some stem)
    (hext : extensionOf b = some ext)
    (hbne : b.isEmpty = false)
    (hshard : shardDir lib d2 = shardDir lib d1)
    (hp1 : (shardDir lib d1 ++ "/" ++ b) ∉ fs0)
    (hp2 : candidatePath (shardDir lib d1) b stem ext 1 ∉ fs0)
    (hcopy1 : copyOk (shardDir lib d1 ++ "/" ++ b) = true)
    (hcopy2 : copyOk (candidatePath (shardDir lib d1) b stem ext 1) = true)
    (hins : ∀ m, insertFails m = false) :
    upload_photos lib copyOk insertFails now
        [⟨b, true, some d1, none, w1, h1⟩, ⟨b, true, some d2, none, w2, h2⟩]
        (fs0, db0) =
      ((candidatePath (shardDir lib d1) b stem ext 1 ::
          (shardDir lib d1 ++ "/" ++ b) :: fs0,
        insert_photo
          (insert_photo db0
            (uploadedPhoto (shardDir lib d1 ++ "/" ++ b) d1 w1 h1)
            "upload" now)
          (uploadedPhoto (candidatePath (shardDir lib d1) b stem ext 1)
            d2 w2 h2)
          "upload" now),
       [uploadedPhoto (shardDir lib d1 ++ "/" ++ b) d1 w1 h1,
        uploadedPhoto (candidatePath (shardDir lib d1) b stem ext 1)
          d2 w2 h2])
    ∧
    (shardDir lib d1 ++ "/" ++ b) ≠ candidatePath (shardDir lib d1) b stem ext 1
    ∧
    ((insert_photo
        (insert_photo db0
          (uploadedPhoto (shardDir lib d1 ++ "/" ++ b) d1 w1 h1)
          "upload" now)
        (uploadedPhoto (candidatePath (shardDir lib d1) b stem ext 1)
          d2 w2 h2)
        "upload" now).photos.filter
      fun r => r.path == shardDir lib d1 ++ "/" ++ b) =
      [photoRowOf (uploadedPhoto (shardDir lib d1 ++ "/" ++ b) d1 w1 h1)
        "upload" now]
    ∧
    ((insert_photo
        (insert_photo db0
          (uploadedPhoto (shardDir lib d1 ++ "/" ++ b) d1 w1 h1)
          "upload" now)
        (uploadedPhoto (candidatePath (shardDir lib d1) b stem ext 1)
          d2 w2 h2)
        "upload" now).photos.filter
      fun r => r.path == candidatePath (shardDir lib d1) b stem ext 1) =
      [photoRowOf
        (uploadedPhoto (candidatePath (shardDir lib d1) b stem ext 1)
          d2 w2 h2) "upload" now]
    ∧
    (∀ (fs : List String) (cand : Nat → String) (j fuel k : Nat),
      j < fuel → (∀ i, i < j → cand (k + i) ∈ fs) → cand (k + j) ∉ fs →
      findFreeFrom fs cand fuel k = cand (k + j)) := by
  have hne : (shardDir lib d1 ++ "/" ++ b) ≠
      candidatePath (shardDir lib d1) b stem ext 1 :=
    dest_ne_candidate _ _ _ _ (stem_ext_decomp b stem ext hext hstem)
  have e1 : uploadOne lib copyOk insertFails now
      ⟨b, true, some d1, none, w1, h1⟩ (fs0, db0) =
      (((shardDir lib d1 ++ "/" ++ b) :: fs0,
        insert_photo db0
          (uploadedPhoto (shardDir lib d1 ++ "/" ++ b) d1 w1 h1)
          "upload" now),
       some (uploadedPhoto (shardDir lib d1 ++ "/" ++ b) d1 w1 h1)) := by
    simp [uploadOne, hbne, hp1, hcopy1, hins, resolveDateTaken, Option.orElse]
  have hfree1 : candidatePath (shardDir lib d1) b stem ext (1 + 0) ∉
      (shardDir lib d1 ++ "/" ++ b) :: fs0 := by
    intro hmem
    rcases List.mem_cons.mp hmem with hh | hh
    · exact hne hh.symm
    · exact hp2 hh
  have hfind : ∀ fuel : Nat, 0 < fuel →
      findFreeFrom ((shardDir lib d1 ++ "/" ++ b) :: fs0)
        (candidatePath (shardDir lib d1) b stem ext) fuel 1 =
      candidatePath (shardDir lib d1) b stem ext 1 := by
    intro fuel hfuel
    have h := findFreeFrom_eq ((shardDir lib d1 ++ "/" ++ b) :: fs0)
      (candidatePath (shardDir lib d1) b stem ext) 0 fuel 1 hfuel
      (fun i hi => absurd hi (Nat.not_lt_zero i)) hfree1
    simpa using h
  have e2 : uploadOne lib copyOk insertFails now
      ⟨b, true, some d2, none, w2, h2⟩
      ((shardDir lib d1 ++ "/" ++ b) :: fs0,
        insert_photo db0
          (uploadedPhoto (shardDir lib d1 ++ "/" ++ b) d1 w1 h1)
          "upload" now) =
      ((candidatePath (shardDir lib d1) b stem ext 1 ::
          (shardDir lib d1 ++ "/" ++ b) :: fs0,
        insert_photo
          (insert_photo db0
            (uploadedPhoto (shardDir lib d1 ++ "/" ++ b) d1 w1 h1)
            "upload" now)
          (uploadedPhoto (candidatePath (shardDir lib d1) b stem ext 1)
            d2 w2 h2)
          "upload" now),
       some (uploadedPhoto (candidatePath (shardDir lib d1) b stem ext 1)
          d2 w2 h2)) := by
    simp [uploadOne, hbne, hshard, hstem, hext, hcopy2, hins,
      resolveDateTaken, Option.orElse, List.mem_cons,
      hfind _ (Nat.succ_pos _)]
  have b21 : (candidatePath (shardDir lib d1) b stem ext 1 ==
      shardDir lib d1 ++ "/" ++ b) = false := by
    simpa using hne.symm
  have b12 : ((shardDir lib d1 ++ "/" ++ b) ==
      candidatePath (shardDir lib d1) b stem ext 1) = false := by
    simpa using hne
  refine ⟨?_, hne, ?_, ?_, findFreeFrom_eq⟩
  · simp [upload_photos, e1, e2]
  · simp [insert_photo, List.filter_append, List.filter_cons,
      uploadedPhoto, photoRowOf, b12, b21, filter_mid_nil,
      filter_of_filter_not]
    intro a _ h1 _
    exact h1
  · simp [insert_photo, List.filter_append, List.filter_cons,
      uploadedPhoto, photoRowOf, b12, b21, filter_mid_nil,
      filter_of_filter_not]
    intro a _ h1 h2
    exact absurd h1 h2

/-- C8 witness: the collision theorem applied to two concrete sources
named `a.jpg` with equal capture dates, uploaded into an empty library. -/
theorem c8_upload_collision_witness :
    upload_photos "L" (fun _ => true) (fun _ => false) 7
        [⟨"a.jpg", true, some 1511665738, none, 1, 2⟩,
         ⟨"a.jpg", true, some 1511665738, none, 3, 4⟩]
        ([], ⟨[], [], []⟩) =
      ((candidatePath (shardDir "L" 1511665738) "a.jpg" "a" "jpg" 1 ::
          (shardDir "L" 1511665738 ++ "/" ++ "a.jpg") :: [],
        insert_photo
          (insert_photo ⟨[], [], []⟩
            (uploadedPhoto (shardDir "L" 1511665738 ++ "/" ++ "a.jpg")
              1511665738 1 2)
            "upload" 7)
          (uploadedPhoto
            (candidatePath (shardDir "L" 1511665738) "a.jpg" "a" "jpg" 1)
            1511665738 3 4)
          "upload" 7),
       [uploadedPhoto (shardDir "L" 1511665738 ++ "/" ++ "a.jpg")
          1511665738 1 2,
        uploadedPhoto
          (candidatePath (shardDir "L" 1511665738) "a.jpg" "a" "jpg" 1)
          1511665738 3 4]) :=
  (c8_upload_collision "L" (fun _ => true) (fun _ => false) 7
    [] ⟨[], [], []⟩ 1511665738 1511665738 "a.jpg" "a" "jpg" 1 2 3 4
    (by decide) (by decide) (by decide) rfl (by decide) (by decide)
    rfl rfl (fun _ => rfl)).1
